import Mathlib

/-
Verification of the kobraille converter (src/kobraille/core.py): a LaTeX-style
arithmetic expression is lexed into tokens, parsed by recursive descent into an
expression tree, and rendered into Korean mathematical braille by a visitor
that threads a `need_indicator` flag through the traversal.

Strings are modelled as `List Char`.  The lexer and the parser are given a
fuel argument so that the loops of `Lexer.tokenize` and the mutually recursive
procedures `parse_expr` / `parse_term` / `parse_factor` become structural
recursions; every reachable execution gets enough fuel (the lexer consumes at
least one character per step, so `length + 1` suffices; the parser is run
with fuel `3 * length + 3`, which is more than the number of procedure calls
it can make on an end-of-input-terminated token list).  The fuel-exhaustion
branches are unreachable on the fuels actually supplied.
-/

set_option maxHeartbeats 1000000

deriving instance DecidableEq for Except

namespace Kobraille

/-- Python str.isspace: the whitespace characters of Python 3 — the ASCII
whitespace U+0009..U+000D and U+0020, the separators U+001C..U+001F, the
next line U+0085, and the Unicode spaces U+00A0, U+1680, U+2000..U+200A,
U+2028, U+2029, U+202F, U+205F, U+3000. -/
def pyIsSpace (c : Char) : Bool :=
  (0x9 ≤ c.toNat && c.toNat ≤ 0xd) || (0x1c ≤ c.toNat && c.toNat ≤ 0x20) ||
  c.toNat = 0x85 || c.toNat = 0xa0 || c.toNat = 0x1680 ||
  (0x2000 ≤ c.toNat && c.toNat ≤ 0x200a) ||
  (0x2028 ≤ c.toNat && c.toNat ≤ 0x2029) || c.toNat = 0x202f ||
  c.toNat = 0x205f || c.toNat = 0x3000

/-- Python str.isdigit of the CPython build the source runs on (Unicode
decimal digits of category Nd together with the Numeric_Type=Digit
characters, e.g. the superscripts U+00B2, U+00B3, U+00B9 and the
Arabic-Indic digits U+0660..U+0669). -/
def pyIsDigit (c : Char) : Bool :=
  (0x30 ≤ c.toNat && c.toNat ≤ 0x39) ||
  (0xb2 ≤ c.toNat && c.toNat ≤ 0xb3) || c.toNat = 0xb9 ||
  (0x660 ≤ c.toNat && c.toNat ≤ 0x669) ||
  (0x6f0 ≤ c.toNat && c.toNat ≤ 0x6f9) ||
  (0x7c0 ≤ c.toNat && c.toNat ≤ 0x7c9) ||
  (0x966 ≤ c.toNat && c.toNat ≤ 0x96f) ||
  (0x9e6 ≤ c.toNat && c.toNat ≤ 0x9ef) ||
  (0xa66 ≤ c.toNat && c.toNat ≤ 0xa6f) ||
  (0xae6 ≤ c.toNat && c.toNat ≤ 0xaef) ||
  (0xb66 ≤ c.toNat && c.toNat ≤ 0xb6f) ||
  (0xbe6 ≤ c.toNat && c.toNat ≤ 0xbef) ||
  (0xc66 ≤ c.toNat && c.toNat ≤ 0xc6f) ||
  (0xce6 ≤ c.toNat && c.toNat ≤ 0xcef) ||
  (0xd66 ≤ c.toNat && c.toNat ≤ 0xd6f) ||
  (0xde6 ≤ c.toNat && c.toNat ≤ 0xdef) ||
  (0xe50 ≤ c.toNat && c.toNat ≤ 0xe59) ||
  (0xed0 ≤ c.toNat && c.toNat ≤ 0xed9) ||
  (0xf20 ≤ c.toNat && c.toNat ≤ 0xf29) ||
  (0x1040 ≤ c.toNat && c.toNat ≤ 0x1049) ||
  (0x1090 ≤ c.toNat && c.toNat ≤ 0x1099) ||
  (0x1369 ≤ c.toNat && c.toNat ≤ 0x1371) ||
  (0x17e0 ≤ c.toNat && c.toNat ≤ 0x17e9) ||
  (0x1810 ≤ c.toNat && c.toNat ≤ 0x1819) ||
  (0x1946 ≤ c.toNat && c.toNat ≤ 0x194f) ||
  (0x19d0 ≤ c.toNat && c.toNat ≤ 0x19da) ||
  (0x1a80 ≤ c.toNat && c.toNat ≤ 0x1a89) ||
  (0x1a90 ≤ c.toNat && c.toNat ≤ 0x1a99) ||
  (0x1b50 ≤ c.toNat && c.toNat ≤ 0x1b59) ||
  (0x1bb0 ≤ c.toNat && c.toNat ≤ 0x1bb9) ||
  (0x1c40 ≤ c.toNat && c.toNat ≤ 0x1c49) ||
  (0x1c50 ≤ c.toNat && c.toNat ≤ 0x1c59) || c.toNat = 0x2070 ||
  (0x2074 ≤ c.toNat && c.toNat ≤ 0x2079) ||
  (0x2080 ≤ c.toNat && c.toNat ≤ 0x2089) ||
  (0x2460 ≤ c.toNat && c.toNat ≤ 0x2468) ||
  (0x2474 ≤ c.toNat && c.toNat ≤ 0x247c) ||
  (0x2488 ≤ c.toNat && c.toNat ≤ 0x2490) || c.toNat = 0x24ea ||
  (0x24f5 ≤ c.toNat && c.toNat ≤ 0x24fd) || c.toNat = 0x24ff ||
  (0x2776 ≤ c.toNat && c.toNat ≤ 0x277e) ||
  (0x2780 ≤ c.toNat && c.toNat ≤ 0x2788) ||
  (0x278a ≤ c.toNat && c.toNat ≤ 0x2792) ||
  (0xa620 ≤ c.toNat && c.toNat ≤ 0xa629) ||
  (0xa8d0 ≤ c.toNat && c.toNat ≤ 0xa8d9) ||
  (0xa900 ≤ c.toNat && c.toNat ≤ 0xa909) ||
  (0xa9d0 ≤ c.toNat && c.toNat ≤ 0xa9d9) ||
  (0xa9f0 ≤ c.toNat && c.toNat ≤ 0xa9f9) ||
  (0xaa50 ≤ c.toNat && c.toNat ≤ 0xaa59) ||
  (0xabf0 ≤ c.toNat && c.toNat ≤ 0xabf9) ||
  (0xff10 ≤ c.toNat && c.toNat ≤ 0xff19) ||
  (0x104a0 ≤ c.toNat && c.toNat ≤ 0x104a9) ||
  (0x10a40 ≤ c.toNat && c.toNat ≤ 0x10a43) ||
  (0x10d30 ≤ c.toNat && c.toNat ≤ 0x10d39) ||
  (0x10e60 ≤ c.toNat && c.toNat ≤ 0x10e68) ||
  (0x11052 ≤ c.toNat && c.toNat ≤ 0x1105a) ||
  (0x11066 ≤ c.toNat && c.toNat ≤ 0x1106f) ||
  (0x110f0 ≤ c.toNat && c.toNat ≤ 0x110f9) ||
  (0x11136 ≤ c.toNat && c.toNat ≤ 0x1113f) ||
  (0x111d0 ≤ c.toNat && c.toNat ≤ 0x111d9) ||
  (0x112f0 ≤ c.toNat && c.toNat ≤ 0x112f9) ||
  (0x11450 ≤ c.toNat && c.toNat ≤ 0x11459) ||
  (0x114d0 ≤ c.toNat && c.toNat ≤ 0x114d9) ||
  (0x11650 ≤ c.toNat && c.toNat ≤ 0x11659) ||
  (0x116c0 ≤ c.toNat && c.toNat ≤ 0x116c9) ||
  (0x11730 ≤ c.toNat && c.toNat ≤ 0x11739) ||
  (0x118e0 ≤ c.toNat && c.toNat ≤ 0x118e9) ||
  (0x11950 ≤ c.toNat && c.toNat ≤ 0x11959) ||
  (0x11c50 ≤ c.toNat && c.toNat ≤ 0x11c59) ||
  (0x11d50 ≤ c.toNat && c.toNat ≤ 0x11d59) ||
  (0x11da0 ≤ c.toNat && c.toNat ≤ 0x11da9) ||
  (0x16a60 ≤ c.toNat && c.toNat ≤ 0x16a69) ||
  (0x16ac0 ≤ c.toNat && c.toNat ≤ 0x16ac9) ||
  (0x16b50 ≤ c.toNat && c.toNat ≤ 0x16b59) ||
  (0x1d7ce ≤ c.toNat && c.toNat ≤ 0x1d7ff) ||
  (0x1e140 ≤ c.toNat && c.toNat ≤ 0x1e149) ||
  (0x1e2f0 ≤ c.toNat && c.toNat ≤ 0x1e2f9) ||
  (0x1e950 ≤ c.toNat && c.toNat ≤ 0x1e959) ||
  (0x1f100 ≤ c.toNat && c.toNat ≤ 0x1f10a) ||
  (0x1fbf0 ≤ c.toNat && c.toNat ≤ 0x1fbf9)

/-- TokenType enum from the source. -/
inductive TokenType
  | NUMBER | PLUS | MINUS | STAR | SLASH | LPAREN | RPAREN | EOF
  deriving DecidableEq

/-- Token dataclass: a kind and the original substring. -/
structure Token where
  type  : TokenType
  value : List Char
  deriving DecidableEq

/-- LexError: the information carried by the lexer's error message —
the offending character, its 0-based position, and the full normalized input. -/
structure LexError where
  ch   : Char
  pos  : Nat
  text : List Char
  deriving DecidableEq

/-- Lexer._CHAR_MAP: single characters that become one-character tokens. -/
def charMap (c : Char) : Option TokenType :=
  if c = '+' then some .PLUS
  else if c = '-' then some .MINUS
  else if c = '*' then some .STAR
  else if c = '/' then some .SLASH
  else if c = '(' then some .LPAREN
  else if c = ')' then some .RPAREN
  else none

/-- Python str.strip: drop whitespace from both ends. -/
def pyStrip (l : List Char) : List Char :=
  ((l.dropWhile pyIsSpace).reverse.dropWhile pyIsSpace).reverse

/-- Lexer.__init__: `text.replace("$", "").strip()`. -/
def normalize (text : List Char) : List Char :=
  pyStrip (text.filter (fun c => c != '$'))

/-- The loop of Lexer.tokenize.  `full` is the whole normalized input (kept
for error reporting), `rest` the characters not yet consumed, `pos` the
current index in `full`.  A digit starts a maximal digit run (`_read_number`);
whitespace is skipped; characters in `_CHAR_MAP` become one-character tokens;
anything else raises LexError.  `none` means the fuel ran out, which cannot
happen when `rest.length < fuel`. -/
def lexF : Nat → List Char → List Char → Nat → Option (Except LexError (List Token))
  | _, _, [], _ => some (.ok [⟨.EOF, []⟩])
  | 0, _, _ :: _, _ => none
  | fuel + 1, full, c :: cs, pos =>
    if pyIsSpace c then
      lexF fuel full cs (pos + 1)
    else if pyIsDigit c then
      (lexF fuel full (cs.dropWhile pyIsDigit)
          (pos + (c :: cs.takeWhile pyIsDigit).length)).map
        (Except.map fun ts => ⟨.NUMBER, c :: cs.takeWhile pyIsDigit⟩ :: ts)
    else
      match charMap c with
      | some tt =>
        (lexF fuel full cs (pos + 1)).map (Except.map fun ts => ⟨tt, [c]⟩ :: ts)
      | none => some (.error ⟨c, pos, full⟩)

/-- Lexer("...").tokenize(): normalize, then run the scanning loop from
position 0.  The `none` branch is unreachable (`lexF_isSome` below). -/
def tokenize (text : List Char) : Except LexError (List Token) :=
  match lexF ((normalize text).length + 1) (normalize text) (normalize text) 0 with
  | some r => r
  | none => .error ⟨' ', 0, normalize text⟩

/-- The AST: NumberNode / BinaryOpNode / GroupNode from the source. -/
inductive Expr
  | NumberNode (value : List Char)
  | BinaryOpNode (op : List Char) (left right : Expr)
  | GroupNode (expr : Expr)
  deriving DecidableEq

/-- ParseError: the information carried by the parser's error messages.
`expectedTok` is raised by `_eat` (expected kind plus the actual token);
`badFactor` by `parse_factor` when the token is neither a number nor `(`
(the actual token; the expected alternatives NUMBER / LPAREN are fixed text).
Neither message contains a position. -/
inductive ParseError
  | expectedTok (expected : TokenType) (actual : Token)
  | badFactor (actual : Token)
  deriving DecidableEq

/-- Parser._eat: check the current token's kind, consume it or fail.
Reading past the end of the token list cannot happen on EOF-terminated input
and is modelled as meeting an EOF token. -/
def eat (expected : TokenType) : List Token → Except ParseError (Token × List Token)
  | [] => .error (.expectedTok expected ⟨.EOF, []⟩)
  | t :: ts => if t.type = expected then .ok (t, ts) else .error (.expectedTok expected t)

/-- Which procedure of the recursive-descent parser is running.  The two
`while` loops of parse_expr and parse_term are the Loop constructors, with the
accumulated left node as argument. -/
inductive ParseCall
  | exprCall (ts : List Token)
  | exprLoop (node : Expr) (ts : List Token)
  | termCall (ts : List Token)
  | termLoop (node : Expr) (ts : List Token)
  | factorCall (ts : List Token)

/-- The mutually recursive procedures parse_expr / parse_term / parse_factor,
merged into one fuel-indexed dispatcher so the recursion is structural.
`exprCall ts` is parse_expr; `exprLoop node ts` its `+`/`-` while loop;
`termCall`/`termLoop` the same for parse_term with `*`/`/`;
`factorCall` is parse_factor.  Reading past the end of the token list cannot
happen on EOF-terminated input and is modelled as meeting an EOF token
(factor) or leaving the loop (the loops peek).  `none` is fuel exhaustion,
unreachable at the fuel `parse` supplies. -/
def parseF : Nat → ParseCall → Option (Except ParseError (Expr × List Token))
  | 0, _ => none
  | fuel + 1, call =>
    match call with
    | .exprCall ts =>
      match parseF fuel (.termCall ts) with
      | some (.ok (node, rest)) => parseF fuel (.exprLoop node rest)
      | r => r
    | .exprLoop node ts =>
      match ts with
      | t :: ts2 =>
        if t.type = .PLUS ∨ t.type = .MINUS then
          match parseF fuel (.termCall ts2) with
          | some (.ok (right, rest)) =>
            parseF fuel (.exprLoop (.BinaryOpNode t.value node right) rest)
          | r => r
        else some (.ok (node, ts))
      | [] => some (.ok (node, ts))
    | .termCall ts =>
      match parseF fuel (.factorCall ts) with
      | some (.ok (node, rest)) => parseF fuel (.termLoop node rest)
      | r => r
    | .termLoop node ts =>
      match ts with
      | t :: ts2 =>
        if t.type = .STAR ∨ t.type = .SLASH then
          match parseF fuel (.factorCall ts2) with
          | some (.ok (right, rest)) =>
            parseF fuel (.termLoop (.BinaryOpNode t.value node right) rest)
          | r => r
        else some (.ok (node, ts))
      | [] => some (.ok (node, ts))
    | .factorCall ts =>
      match ts with
      | [] => some (.error (.badFactor ⟨.EOF, []⟩))
      | t :: ts2 =>
        match t.type with
        | .NUMBER => some (.ok (.NumberNode t.value, ts2))
        | .LPAREN =>
          match parseF fuel (.exprCall ts2) with
          | some (.ok (inner, rest)) =>
            match eat .RPAREN rest with
            | .ok (_, rest2) => some (.ok (.GroupNode inner, rest2))
            | .error e => some (.error e)
          | r => r
        | _ => some (.error (.badFactor t))

/-- Parser.parse: parse a full expression, then `_eat(EOF)`.  The `none`
branch is fuel exhaustion, unreachable at fuel `3 * length + 3`. -/
def parse (tokens : List Token) : Except ParseError Expr :=
  match parseF (3 * tokens.length + 3) (.exprCall tokens) with
  | some (.ok (tree, rest)) =>
    match eat .EOF rest with
    | .ok _ => .ok tree
    | .error e => .error e
  | some (.error e) => .error e
  | none => .error (.badFactor ⟨.EOF, []⟩)

/-- BrailleVisitor.NUMBER_INDICATOR. -/
def NUMBER_INDICATOR : Char := '⠼'

/-- BrailleVisitor.DIGIT_MAP; a digit outside the table is a Python KeyError,
modelled as `none`. -/
def DIGIT_MAP (c : Char) : Option Char :=
  if c = '0' then some '⠚'
  else if c = '1' then some '⠁'
  else if c = '2' then some '⠃'
  else if c = '3' then some '⠉'
  else if c = '4' then some '⠙'
  else if c = '5' then some '⠑'
  else if c = '6' then some '⠋'
  else if c = '7' then some '⠛'
  else if c = '8' then some '⠓'
  else if c = '9' then some '⠊'
  else none

/-- BrailleVisitor.OP_MAP; an operator outside the table is a KeyError,
modelled as `none`. -/
def OP_MAP (op : List Char) : Option (List Char) :=
  if op = ['+'] then some ['⠢']
  else if op = ['-'] then some ['⠔']
  else if op = ['*'] then some ['⠡']
  else if op = ['/'] then some ['⠌', '⠌']
  else none

/-- BrailleVisitor.LPAREN_BRAILLE. -/
def LPAREN_BRAILLE : Char := '⠦'

/-- BrailleVisitor.RPAREN_BRAILLE. -/
def RPAREN_BRAILLE : Char := '⠴'

/-- The generator `"".join(DIGIT_MAP[d] for d in num_str)`. -/
def mapDigits : List Char → Option (List Char)
  | [] => some []
  | c :: cs =>
    match DIGIT_MAP c, mapDigits cs with
    | some d, some ds => some (d :: ds)
    | _, _ => none

/-- BrailleVisitor._number_to_braille. -/
def number_to_braille (numStr : List Char) (withIndicator : Bool) : Option (List Char) :=
  match mapDigits numStr with
  | some ds => some ((if withIndicator then [NUMBER_INDICATOR] else []) ++ ds)
  | none => none

/-- The traversal of BrailleVisitor._visit with a _ContextVisitor: the second
argument is the `need_indicator` flag.  A BinaryOpNode passes the incoming
flag to its left child and forces `true` on its right child; a GroupNode
forces `true` on its interior and wraps it in the bracket symbols. -/
def braille : Expr → Bool → Option (List Char)
  | .NumberNode v, need => number_to_braille v need
  | .BinaryOpNode op l r, need =>
    match braille l need, OP_MAP op, braille r true with
    | some le, some os, some re => some (le ++ os ++ re)
    | _, _, _ => none
  | .GroupNode e, _ =>
    match braille e true with
    | some inner => some (LPAREN_BRAILLE :: inner ++ [RPAREN_BRAILLE])
    | none => none

/-- BrailleVisitor.convert: start the traversal with need_indicator=True. -/
def convert (node : Expr) : Option (List Char) := braille node true

/-- DebugVisitor: the structure-echo rendering `(left op right)` / `[inner]`. -/
def debugVisit : Expr → List Char
  | .NumberNode v => v
  | .BinaryOpNode op l r =>
    ['('] ++ debugVisit l ++ [' '] ++ op ++ [' '] ++ debugVisit r ++ [')']
  | .GroupNode e => ['['] ++ debugVisit e ++ [']']

/-- The error surface of the whole pipeline: LexError, ParseError, or the
(unreachable) KeyError of the braille tables. -/
inductive ConvertError
  | lex (e : LexError)
  | parse (e : ParseError)
  | key
  deriving DecidableEq

/-- The lexing and parsing stages of latex_to_korean_braille. -/
def parseInput (latex : List Char) : Except ConvertError Expr :=
  match tokenize latex with
  | .error e => .error (.lex e)
  | .ok ts =>
    match parse ts with
    | .error e => .error (.parse e)
    | .ok tree => .ok tree

/-- latex_to_korean_braille: Lexer → Parser → BrailleVisitor. -/
def latex_to_korean_braille (latex : List Char) : Except ConvertError (List Char) :=
  match parseInput latex with
  | .error e => .error e
  | .ok tree =>
    match braille tree true with
    | some out => .ok out
    | none => .error .key

/-- A numeral output symbol: the range of DIGIT_MAP. -/
def isNumeral (c : Char) : Bool :=
  c = '⠚' || c = '⠁' || c = '⠃' || c = '⠉' || c = '⠙' ||
  c = '⠑' || c = '⠋' || c = '⠛' || c = '⠓' || c = '⠊'

/-- State of the scan checking the number-indicator invariant: `normal`
outside a numeral run, `afterInd` directly after an indicator symbol,
`inRun` inside an indicator-opened numeral run. -/
inductive RunState
  | normal | afterInd | inRun
  deriving DecidableEq

/-- One step of the indicator-invariant scan.  Rejects (`none`) an indicator
directly after an indicator, a numeral not preceded by an indicator or a
numeral, and a non-numeral directly after an indicator. -/
def runStep (st : RunState) (c : Char) : Option RunState :=
  if c = NUMBER_INDICATOR then
    match st with
    | .afterInd => none
    | _ => some .afterInd
  else if isNumeral c then
    match st with
    | .normal => none
    | _ => some .inRun
  else
    match st with
    | .afterInd => none
    | _ => some .normal

/-- Run the indicator-invariant scan over a list of output symbols. -/
def runScan : RunState → List Char → Option RunState
  | st, [] => some st
  | st, c :: cs =>
    match runStep st c with
    | some st2 => runScan st2 cs
    | none => none

/-- The number-indicator invariant of an output string: every maximal run of
numeral symbols is immediately preceded by exactly one indicator symbol
(never two: `runStep` rejects an indicator after an indicator), and every
indicator symbol is immediately followed by a numeral run (a trailing or
numeral-less indicator leaves the scan in `afterInd` and is rejected). -/
def indicatorOk (l : List Char) : Bool :=
  match runScan .normal l with
  | some .afterInd => false
  | some _ => true
  | none => false

/-- Trees whose NumberNode leaves hold nonempty digit strings; every tree the
parser builds from lexer output is of this shape. -/
def wfExpr : Expr → Prop
  | .NumberNode v => v ≠ []
  | .BinaryOpNode _ l r => wfExpr l ∧ wfExpr r
  | .GroupNode e => wfExpr e

/-- Token lists whose NUMBER tokens hold nonempty values (lexer output is). -/
def goodTokens (ts : List Token) : Prop :=
  ∀ t ∈ ts, t.type = .NUMBER → t.value ≠ []

/-- The token-list argument of a parser procedure call. -/
def callTokens : ParseCall → List Token
  | .exprCall ts => ts
  | .exprLoop _ ts => ts
  | .termCall ts => ts
  | .termLoop _ ts => ts
  | .factorCall ts => ts

/-- The accumulated left node of a parser loop call is well-formed (trivial
for the three non-loop procedures). -/
def callWf : ParseCall → Prop
  | .exprLoop node _ => wfExpr node
  | .termLoop node _ => wfExpr node
  | _ => True

/-- A character the lexer accepts: a digit, whitespace, or an operator or
parenthesis from _CHAR_MAP. -/
def allowedChar (c : Char) : Bool :=
  pyIsDigit c || pyIsSpace c || (charMap c).isSome

/-- Number of NumberNode leaves of a tree. -/
def count_number_nodes : Expr → Nat
  | .NumberNode _ => 1
  | .BinaryOpNode _ l r => count_number_nodes l + count_number_nodes r
  | .GroupNode e => count_number_nodes e

/-- The braille traversal specialized to a need_indicator flag that is true
at every visit; `braille e true` coincides with it (claim C9). -/
def brailleAllTrue : Expr → Option (List Char)
  | .NumberNode v => number_to_braille v true
  | .BinaryOpNode op l r =>
    match brailleAllTrue l, OP_MAP op, brailleAllTrue r with
    | some le, some os, some re => some (le ++ os ++ re)
    | _, _, _ => none
  | .GroupNode e =>
    match brailleAllTrue e with
    | some inner => some (LPAREN_BRAILLE :: inner ++ [RPAREN_BRAILLE])
    | none => none

/-! List helper lemmas used by the lexer proofs. -/

theorem takeWhile_append_of_all (p : Char → Bool) (xs ys : List Char)
    (h : ∀ c ∈ xs, p c = true) :
    (xs ++ ys).takeWhile p = xs ++ ys.takeWhile p := by
  induction xs with
  | nil => simp
  | cons a as ih =>
    have ha : p a = true := h a (List.mem_cons_self a as)
    simp only [List.cons_append, List.takeWhile_cons, ha, if_true]
    exact congrArg (a :: ·) (ih (fun c hc => h c (List.mem_cons_of_mem a hc)))

theorem dropWhile_append_of_all (p : Char → Bool) (xs ys : List Char)
    (h : ∀ c ∈ xs, p c = true) :
    (xs ++ ys).dropWhile p = ys.dropWhile p := by
  induction xs with
  | nil => simp
  | cons a as ih =>
    have ha : p a = true := h a (List.mem_cons_self a as)
    simp only [List.cons_append, List.dropWhile_cons, ha, if_true]
    exact ih (fun c hc => h c (List.mem_cons_of_mem a hc))

theorem dropWhile_eq_self_of (p : Char → Bool) (l : List Char)
    (h : ∀ c ∈ l, p c = false) : l.dropWhile p = l := by
  cases l with
  | nil => rfl
  | cons a as =>
    have ha : p a = false := h a (List.mem_cons_self a as)
    simp [List.dropWhile_cons, ha]

theorem mem_dropWhile_of (p : Char → Bool) (l : List Char) (c : Char)
    (hc : c ∈ l) (hp : p c = false) : c ∈ l.dropWhile p := by
  induction l with
  | nil => cases hc
  | cons a as ih =>
    by_cases ha : p a = true
    · simp only [List.dropWhile_cons, ha, if_true]
      rcases List.mem_cons.mp hc with rfl | hmem
      · exact absurd ha (by simp [hp])
      · exact ih hmem
    · simp only [List.dropWhile_cons, ha, if_false]
      exact hc

theorem dropWhile_eq_drop_len (p : Char → Bool) (l : List Char) :
    l.dropWhile p = l.drop (l.takeWhile p).length := by
  induction l with
  | nil => rfl
  | cons a as ih =>
    by_cases ha : p a = true
    · simp [List.dropWhile_cons, List.takeWhile_cons, ha, ih]
    · simp [List.dropWhile_cons, List.takeWhile_cons, ha]

theorem mem_takeWhile_imp (p : Char → Bool) (l : List Char) (c : Char)
    (hc : c ∈ l.takeWhile p) : p c = true := by
  induction l with
  | nil => cases hc
  | cons a as ih =>
    by_cases ha : p a = true
    · simp only [List.takeWhile_cons, ha, if_true] at hc
      rcases List.mem_cons.mp hc with rfl | hmem
      · exact ha
      · exact ih hmem
    · simp [List.takeWhile_cons, ha] at hc

theorem getElem?_of_drop_cons {l t : List Char} {n : Nat} {c : Char}
    (h : l.drop n = c :: t) : l[n]? = some c := by
  induction l generalizing n with
  | nil => simp at h
  | cons a as ih =>
    cases n with
    | zero =>
      rw [List.drop_zero] at h
      rw [h]
      simp
    | succ n =>
      rw [List.drop_succ_cons] at h
      simpa using ih h

/-! Character-class facts. -/

theorem not_space_of_isDigit (c : Char) (h : pyIsDigit c = true) : pyIsSpace c = false := by
  rcases Bool.eq_false_or_eq_true (pyIsSpace c) with ht | hf
  · exfalso
    simp only [pyIsDigit, Bool.or_eq_true, Bool.and_eq_true, decide_eq_true_eq] at h
    simp only [pyIsSpace, Bool.or_eq_true, Bool.and_eq_true, decide_eq_true_eq] at ht
    omega
  · exact hf

theorem ne_dollar_of_isDigit (c : Char) (h : pyIsDigit c = true) : c ≠ '$' := by
  rintro rfl
  exact absurd h (by decide)

theorem charMap_eq_none_of_isDigit (c : Char) (h : pyIsDigit c = true) : charMap c = none := by
  unfold charMap
  split_ifs with h1 h2 h3 h4 h5 h6
  · exact absurd (h1 ▸ h) (by decide)
  · exact absurd (h2 ▸ h) (by decide)
  · exact absurd (h3 ▸ h) (by decide)
  · exact absurd (h4 ▸ h) (by decide)
  · exact absurd (h5 ▸ h) (by decide)
  · exact absurd (h6 ▸ h) (by decide)
  · rfl

theorem charMap_cases (c : Char) (tt : TokenType) (h : charMap c = some tt) :
    (c = '+' ∧ tt = .PLUS) ∨ (c = '-' ∧ tt = .MINUS) ∨ (c = '*' ∧ tt = .STAR) ∨
    (c = '/' ∧ tt = .SLASH) ∨ (c = '(' ∧ tt = .LPAREN) ∨ (c = ')' ∧ tt = .RPAREN) := by
  unfold charMap at h
  split_ifs at h with h1 h2 h3 h4 h5 h6
  · exact Or.inl ⟨h1, (Option.some.inj h).symm⟩
  · exact Or.inr (Or.inl ⟨h2, (Option.some.inj h).symm⟩)
  · exact Or.inr (Or.inr (Or.inl ⟨h3, (Option.some.inj h).symm⟩))
  · exact Or.inr (Or.inr (Or.inr (Or.inl ⟨h4, (Option.some.inj h).symm⟩)))
  · exact Or.inr (Or.inr (Or.inr (Or.inr (Or.inl ⟨h5, (Option.some.inj h).symm⟩))))
  · exact Or.inr (Or.inr (Or.inr (Or.inr (Or.inr ⟨h6, (Option.some.inj h).symm⟩))))

theorem OP_MAP_cases (op : List Char) (os : List Char) (h : OP_MAP op = some os) :
    (op = ['+'] ∧ os = ['⠢']) ∨ (op = ['-'] ∧ os = ['⠔']) ∨
    (op = ['*'] ∧ os = ['⠡']) ∨ (op = ['/'] ∧ os = ['⠌', '⠌']) := by
  unfold OP_MAP at h
  split_ifs at h with h1 h2 h3 h4
  · exact Or.inl ⟨h1, (Option.some.inj h).symm⟩
  · exact Or.inr (Or.inl ⟨h2, (Option.some.inj h).symm⟩)
  · exact Or.inr (Or.inr (Or.inl ⟨h3, (Option.some.inj h).symm⟩))
  · exact Or.inr (Or.inr (Or.inr ⟨h4, (Option.some.inj h).symm⟩))

theorem isDigit_of_DIGIT_MAP (c d : Char) (h : DIGIT_MAP c = some d) : pyIsDigit c = true := by
  unfold DIGIT_MAP at h
  split_ifs at h with h1 h2 h3 h4 h5 h6 h7 h8 h9 h10
  · exact h1 ▸ (by decide)
  · exact h2 ▸ (by decide)
  · exact h3 ▸ (by decide)
  · exact h4 ▸ (by decide)
  · exact h5 ▸ (by decide)
  · exact h6 ▸ (by decide)
  · exact h7 ▸ (by decide)
  · exact h8 ▸ (by decide)
  · exact h9 ▸ (by decide)
  · exact h10 ▸ (by decide)

theorem isNumeral_of_DIGIT_MAP (c d : Char) (h : DIGIT_MAP c = some d) :
    isNumeral d = true := by
  unfold DIGIT_MAP at h
  split_ifs at h
  all_goals (cases Option.some.inj h; decide)

theorem isNumeral_ne_indicator (c : Char) (h : isNumeral c = true) :
    c ≠ NUMBER_INDICATOR := by
  have hc : c = '⠚' ∨ c = '⠁' ∨ c = '⠃' ∨ c = '⠉' ∨ c = '⠙' ∨
      c = '⠑' ∨ c = '⠋' ∨ c = '⠛' ∨ c = '⠓' ∨ c = '⠊' := by
    simpa [isNumeral, or_assoc] using h
  rcases hc with rfl | rfl | rfl | rfl | rfl | rfl | rfl | rfl | rfl | rfl <;> decide

theorem OP_MAP_plain (op : List Char) (os : List Char) (h : OP_MAP op = some os) :
    os ≠ [] ∧ ∀ c ∈ os, c ≠ NUMBER_INDICATOR ∧ isNumeral c = false := by
  rcases OP_MAP_cases op os h with ⟨_, rfl⟩ | ⟨_, rfl⟩ | ⟨_, rfl⟩ | ⟨_, rfl⟩ <;>
    refine ⟨by simp, ?_⟩ <;> intro c hc
  · cases List.mem_singleton.mp hc; exact ⟨by decide, by decide⟩
  · cases List.mem_singleton.mp hc; exact ⟨by decide, by decide⟩
  · cases List.mem_singleton.mp hc; exact ⟨by decide, by decide⟩
  · rcases List.mem_cons.mp hc with rfl | hc2
    · exact ⟨by decide, by decide⟩
    · cases List.mem_singleton.mp hc2; exact ⟨by decide, by decide⟩

/-! Normalization lemmas. -/

theorem pyStrip_eq_self (l : List Char) (h : ∀ c ∈ l, pyIsSpace c = false) :
    pyStrip l = l := by
  unfold pyStrip
  rw [dropWhile_eq_self_of _ _ h]
  rw [dropWhile_eq_self_of _ _ (fun c hc => h c (List.mem_reverse.mp hc))]
  exact List.reverse_reverse l

theorem normalize_eq_self (l : List Char)
    (h : ∀ c ∈ l, pyIsSpace c = false ∧ c ≠ '$') : normalize l = l := by
  unfold normalize
  have hf : l.filter (fun c => c != '$') = l :=
    List.filter_eq_self.mpr (fun c hc => by simp [(h c hc).2])
  rw [hf]
  exact pyStrip_eq_self l (fun c hc => (h c hc).1)

theorem mem_normalize (l : List Char) (c : Char) (hc : c ∈ l)
    (hs : pyIsSpace c = false) (hd : c ≠ '$') : c ∈ normalize l := by
  unfold normalize pyStrip
  have h1 : c ∈ l.filter (fun c => c != '$') := List.mem_filter.mpr ⟨hc, by simp [hd]⟩
  have h2 := mem_dropWhile_of pyIsSpace _ c h1 hs
  have h3 := mem_dropWhile_of pyIsSpace _ c (List.mem_reverse.mpr h2) hs
  exact List.mem_reverse.mpr h3

/-! Lexer lemmas. -/

theorem lexF_nil (fuel : Nat) (full : List Char) (pos : Nat) :
    lexF fuel full [] pos = some (.ok [⟨.EOF, []⟩]) := by
  cases fuel <;> rfl

theorem map_ok_inv {x : Option (Except LexError (List Token))}
    {g : List Token → List Token} {ts : List Token}
    (h : x.map (Except.map g) = some (.ok ts)) :
    ∃ ts2, x = some (.ok ts2) ∧ ts = g ts2 := by
  cases x with
  | none => cases h
  | some r =>
    cases r with
    | error e => simp [Except.map] at h
    | ok v =>
      simp only [Option.map_some', Except.map, Option.some.injEq, Except.ok.injEq] at h
      exact ⟨v, rfl, h.symm⟩

theorem map_err_inv {x : Option (Except LexError (List Token))}
    {g : List Token → List Token} {e : LexError}
    (h : x.map (Except.map g) = some (.error e)) : x = some (.error e) := by
  cases x with
  | none => cases h
  | some r =>
    cases r with
    | error e2 =>
      simp only [Option.map_some', Except.map, Option.some.injEq, Except.error.injEq] at h
      rw [h]
    | ok v => simp [Except.map] at h

theorem lexF_digit (fuel : Nat) (full A rest : List Char) (pos : Nat)
    (hA : A ≠ []) (hdig : ∀ c ∈ A, pyIsDigit c = true)
    (hrest : rest.takeWhile pyIsDigit = []) :
    lexF (fuel + 1) full (A ++ rest) pos =
      (lexF fuel full rest (pos + A.length)).map
        (Except.map fun ts => ⟨.NUMBER, A⟩ :: ts) := by
  cases A with
  | nil => exact absurd rfl hA
  | cons a as =>
    have ha : pyIsDigit a = true := hdig a (List.mem_cons_self a as)
    have has : ∀ c ∈ as, pyIsDigit c = true :=
      fun c hc => hdig c (List.mem_cons_of_mem a hc)
    have hsp : pyIsSpace a = false := not_space_of_isDigit a ha
    have htw : (as ++ rest).takeWhile pyIsDigit = as := by
      rw [takeWhile_append_of_all _ _ _ has, hrest, List.append_nil]
    have hdw : (as ++ rest).dropWhile pyIsDigit = rest := by
      rw [dropWhile_append_of_all _ _ _ has, dropWhile_eq_drop_len, hrest]
      rfl
    show lexF (fuel + 1) full (a :: (as ++ rest)) pos = _
    simp only [lexF, hsp, ha, Bool.false_eq_true, if_false, if_true, htw, hdw,
      List.length_cons]

theorem lexF_op (fuel : Nat) (full rest : List Char) (c : Char) (pos : Nat)
    (tt : TokenType) (hc : charMap c = some tt) :
    lexF (fuel + 1) full (c :: rest) pos =
      (lexF fuel full rest (pos + 1)).map (Except.map fun ts => ⟨tt, [c]⟩ :: ts) := by
  rcases charMap_cases c tt hc with
    ⟨rfl, rfl⟩ | ⟨rfl, rfl⟩ | ⟨rfl, rfl⟩ | ⟨rfl, rfl⟩ | ⟨rfl, rfl⟩ | ⟨rfl, rfl⟩ <;> rfl

theorem len_dropWhile_le (p : Char → Bool) (l : List Char) :
    (l.dropWhile p).length ≤ l.length := by
  induction l with
  | nil => simp
  | cons a as ih =>
    by_cases ha : p a = true
    · simp only [List.dropWhile_cons, ha, if_true]
      exact Nat.le_trans ih (by simp)
    · simp [List.dropWhile_cons, ha]

theorem lexF_isSome (fuel : Nat) :
    ∀ (full rest : List Char) (pos : Nat), rest.length < fuel →
      lexF fuel full rest pos ≠ none := by
  induction fuel with
  | zero => intro full rest pos h; exact absurd h (Nat.not_lt_zero _)
  | succ fuel ih =>
    intro full rest pos h
    cases rest with
    | nil => simp [lexF_nil]
    | cons a cs =>
      simp only [lexF]
      split_ifs with h1 h2
      · exact ih full cs (pos + 1) (by simp at h; omega)
      · intro hcontra
        rw [Option.map_eq_none'] at hcontra
        have hlen : (cs.dropWhile pyIsDigit).length < fuel := by
          have := len_dropWhile_le pyIsDigit cs
          simp at h; omega
        exact ih full (cs.dropWhile pyIsDigit) _ hlen hcontra
      · cases hcm : charMap a with
        | none => simp
        | some tt =>
          intro hcontra
          rw [Option.map_eq_none'] at hcontra
          exact ih full cs (pos + 1) (by simp at h; omega) hcontra

theorem lexF_ok_allowed (fuel : Nat) :
    ∀ (full rest : List Char) (pos : Nat) (ts : List Token),
      lexF fuel full rest pos = some (.ok ts) → ∀ c ∈ rest, allowedChar c = true := by
  induction fuel with
  | zero =>
    intro full rest pos ts h c hc
    cases rest with
    | nil => cases hc
    | cons a cs => cases h
  | succ fuel ih =>
    intro full rest pos ts h c hc
    cases rest with
    | nil => cases hc
    | cons a cs =>
      simp only [lexF] at h
      split_ifs at h with h1 h2
      · rcases List.mem_cons.mp hc with rfl | hmem
        · simp [allowedChar, h1]
        · exact ih full cs (pos + 1) ts h c hmem
      · obtain ⟨ts2, hx, -⟩ := map_ok_inv h
        rcases List.mem_cons.mp hc with rfl | hmem
        · simp [allowedChar, h2]
        · have hsplit : c ∈ cs.takeWhile pyIsDigit ∨ c ∈ cs.dropWhile pyIsDigit := by
            rw [← List.mem_append, List.takeWhile_append_dropWhile]
            exact hmem
          rcases hsplit with htk | hdr
          · simp [allowedChar, mem_takeWhile_imp _ _ _ htk]
          · exact ih full _ _ ts2 hx c hdr
      · cases hcm : charMap a with
        | none => rw [hcm] at h; cases h
        | some tt =>
          rw [hcm] at h
          obtain ⟨ts2, hx, -⟩ := map_ok_inv h
          rcases List.mem_cons.mp hc with rfl | hmem
          · simp [allowedChar, hcm]
          · exact ih full cs (pos + 1) ts2 hx c hmem

theorem lexF_err (fuel : Nat) :
    ∀ (full rest : List Char) (pos : Nat) (e : LexError),
      rest = full.drop pos → lexF fuel full rest pos = some (.error e) →
      allowedChar e.ch = false ∧ e.text = full ∧ full[e.pos]? = some e.ch := by
  induction fuel with
  | zero =>
    intro full rest pos e _ h
    cases rest with
    | nil => cases h
    | cons a cs => cases h
  | succ fuel ih =>
    intro full rest pos e hdrop h
    cases rest with
    | nil => cases h
    | cons a cs =>
      have hdrop2 : cs = full.drop (pos + 1) := by
        have : full.drop (pos + 1) = (full.drop pos).drop 1 := by
          rw [List.drop_drop, Nat.add_comm]
        rw [this, ← hdrop]
        rfl
      simp only [lexF] at h
      split_ifs at h with h1 h2
      · exact ih full cs (pos + 1) e hdrop2 h
      · have hx := map_err_inv h
        have hdrop3 : cs.dropWhile pyIsDigit =
            full.drop (pos + (a :: cs.takeWhile pyIsDigit).length) := by
          have hsteps : full.drop (pos + (a :: cs.takeWhile pyIsDigit).length) =
              (full.drop (pos + 1)).drop (cs.takeWhile pyIsDigit).length := by
            rw [List.drop_drop]
            congr 1
            simp only [List.length_cons]
            omega
          rw [hsteps, ← hdrop2, dropWhile_eq_drop_len]
        exact ih full _ _ e hdrop3 hx
      · cases hcm : charMap a with
        | none =>
          rw [hcm] at h
          have he : e = ⟨a, pos, full⟩ := ((Except.error.inj (Option.some.inj h))).symm
          subst he
          refine ⟨?_, rfl, getElem?_of_drop_cons hdrop.symm⟩
          simp [allowedChar, hcm]
          exact ⟨by simpa using h2, by simpa using h1⟩
        | some tt =>
          rw [hcm] at h
          exact ih full cs (pos + 1) e hdrop2 (map_err_inv h)

theorem lexF_goodTokens (fuel : Nat) :
    ∀ (full rest : List Char) (pos : Nat) (ts : List Token),
      lexF fuel full rest pos = some (.ok ts) → goodTokens ts := by
  induction fuel with
  | zero =>
    intro full rest pos ts h
    cases rest with
    | nil =>
      cases Except.ok.inj (Option.some.inj h)
      intro t ht htype
      rcases List.mem_singleton.mp ht with rfl
      simp at htype
    | cons a cs => cases h
  | succ fuel ih =>
    intro full rest pos ts h
    cases rest with
    | nil =>
      cases Except.ok.inj (Option.some.inj h)
      intro t ht htype
      rcases List.mem_singleton.mp ht with rfl
      simp at htype
    | cons a cs =>
      simp only [lexF] at h
      split_ifs at h with h1 h2
      · exact ih full cs (pos + 1) ts h
      · obtain ⟨ts2, hx, rfl⟩ := map_ok_inv h
        intro t ht htype
        rcases List.mem_cons.mp ht with rfl | hmem
        · simp
        · exact ih full _ _ ts2 hx t hmem htype
      · cases hcm : charMap a with
        | none => rw [hcm] at h; cases h
        | some tt =>
          rw [hcm] at h
          obtain ⟨ts2, hx, rfl⟩ := map_ok_inv h
          intro t ht htype
          rcases List.mem_cons.mp ht with rfl | hmem
          · simp
          · exact ih full cs (pos + 1) ts2 hx t hmem htype

theorem tokenize_goodTokens (text : List Char) (ts : List Token)
    (h : tokenize text = .ok ts) : goodTokens ts := by
  unfold tokenize at h
  cases hx : lexF ((normalize text).length + 1) (normalize text) (normalize text) 0 with
  | none => rw [hx] at h; cases h
  | some r =>
    rw [hx] at h
    cases r with
    | error e => cases h
    | ok v =>
      cases Except.ok.inj h
      exact lexF_goodTokens _ _ _ _ _ hx

/-! Computing the lexer on digit-run inputs. -/

theorem tokenize_digits (s : List Char) (hs : s ≠ [])
    (hd : ∀ c ∈ s, pyIsDigit c = true) :
    tokenize s = .ok [⟨.NUMBER, s⟩, ⟨.EOF, []⟩] := by
  have hnorm : normalize s = s :=
    normalize_eq_self s (fun c hc =>
      ⟨not_space_of_isDigit c (hd c hc), ne_dollar_of_isDigit c (hd c hc)⟩)
  unfold tokenize
  rw [hnorm]
  have hstep := lexF_digit s.length s s [] 0 hs hd rfl
  rw [List.append_nil] at hstep
  rw [hstep, lexF_nil]
  rfl

theorem tokenize_num_op_num (A B : List Char) (c : Char) (tt : TokenType)
    (hA : A ≠ []) (hB : B ≠ [])
    (hdA : ∀ x ∈ A, pyIsDigit x = true) (hdB : ∀ x ∈ B, pyIsDigit x = true)
    (hc : charMap c = some tt) :
    tokenize (A ++ c :: B) =
      .ok [⟨.NUMBER, A⟩, ⟨tt, [c]⟩, ⟨.NUMBER, B⟩, ⟨.EOF, []⟩] := by
  have hcfacts : pyIsSpace c = false ∧ c ≠ '$' ∧ pyIsDigit c = false := by
    rcases charMap_cases c tt hc with
      ⟨rfl, -⟩ | ⟨rfl, -⟩ | ⟨rfl, -⟩ | ⟨rfl, -⟩ | ⟨rfl, -⟩ | ⟨rfl, -⟩ <;>
      exact ⟨by decide, by decide, by decide⟩
  have hnorm : normalize (A ++ c :: B) = A ++ c :: B := by
    apply normalize_eq_self
    intro x hx
    rcases List.mem_append.mp hx with hxA | hxcB
    · exact ⟨not_space_of_isDigit x (hdA x hxA), ne_dollar_of_isDigit x (hdA x hxA)⟩
    · rcases List.mem_cons.mp hxcB with rfl | hxB
      · exact ⟨hcfacts.1, hcfacts.2.1⟩
      · exact ⟨not_space_of_isDigit x (hdB x hxB), ne_dollar_of_isDigit x (hdB x hxB)⟩
  unfold tokenize
  rw [hnorm]
  have h1 := lexF_digit (A ++ c :: B).length (A ++ c :: B) A (c :: B) 0 hA hdA
    (by simp [List.takeWhile_cons, hcfacts.2.2])
  rw [h1]
  have e2 : (A ++ c :: B).length = A.length + B.length + 1 := by
    simp only [List.length_append, List.length_cons]
    omega
  rw [e2]
  rw [lexF_op (A.length + B.length) (A ++ c :: B) B c (0 + A.length) tt hc]
  have e3 : A.length + B.length = A.length + B.length - 1 + 1 := by
    have := List.length_pos.mpr hA
    omega
  rw [e3]
  have h3 := lexF_digit (A.length + B.length - 1) (A ++ c :: B) B [] (0 + A.length + 1)
    hB hdB rfl
  rw [List.append_nil] at h3
  rw [h3, lexF_nil]
  rfl

/-! Parser lemmas. -/

theorem eat_ok_inv {expected : TokenType} {ts rest : List Token} {t : Token}
    (h : eat expected ts = .ok (t, rest)) : ts = t :: rest ∧ t.type = expected := by
  cases ts with
  | nil => cases h
  | cons t2 ts2 =>
    simp only [eat] at h
    split_ifs at h with htype
    · obtain ⟨rfl, rfl⟩ := Prod.mk.inj (Except.ok.inj h)
      exact ⟨rfl, htype⟩

theorem goodTokens_suffix {r ts : List Token} (hs : r <:+ ts) (hg : goodTokens ts) :
    goodTokens r :=
  fun t ht => hg t (hs.subset ht)

theorem parseF_wf (fuel : Nat) :
    ∀ (call : ParseCall) (e : Expr) (r : List Token),
      parseF fuel call = some (.ok (e, r)) → goodTokens (callTokens call) →
      callWf call → wfExpr e ∧ r <:+ callTokens call := by
  induction fuel with
  | zero => intro call e r h _ _; cases h
  | succ fuel ih =>
    intro call e r h hg hwf
    cases call with
    | exprCall ts =>
      simp only [parseF] at h
      cases h1 : parseF fuel (.termCall ts) with
      | none => rw [h1] at h; cases h
      | some r1 =>
        rw [h1] at h
        cases r1 with
        | error e1 => exact Except.noConfusion (Option.some.inj h)
        | ok pr =>
          obtain ⟨node, rest⟩ := pr
          obtain ⟨hwn, hsub⟩ := ih (.termCall ts) node rest h1 hg trivial
          obtain ⟨hwe, hsub2⟩ :=
            ih (.exprLoop node rest) e r h (goodTokens_suffix hsub hg) hwn
          exact ⟨hwe, hsub2.trans hsub⟩
    | exprLoop node ts =>
      cases ts with
      | nil =>
        simp only [parseF] at h
        obtain ⟨rfl, rfl⟩ := Prod.mk.inj (Except.ok.inj (Option.some.inj h))
        exact ⟨hwf, List.suffix_rfl⟩
      | cons t ts2 =>
        simp only [parseF] at h
        by_cases hop : (t.type = .PLUS ∨ t.type = .MINUS)
        · rw [if_pos hop] at h
          cases h1 : parseF fuel (.termCall ts2) with
          | none => rw [h1] at h; cases h
          | some r1 =>
            rw [h1] at h
            cases r1 with
            | error e1 => exact Except.noConfusion (Option.some.inj h)
            | ok pr =>
              obtain ⟨right, rest⟩ := pr
              have hg2 : goodTokens ts2 :=
                goodTokens_suffix (List.suffix_cons t ts2) hg
              obtain ⟨hwr, hsub⟩ := ih (.termCall ts2) right rest h1 hg2 trivial
              obtain ⟨hwe, hsub2⟩ :=
                ih (.exprLoop (.BinaryOpNode t.value node right) rest) e r h
                  (goodTokens_suffix hsub hg2) ⟨hwf, hwr⟩
              exact ⟨hwe, ((hsub2.trans hsub).trans (List.suffix_cons t ts2))⟩
        · rw [if_neg hop] at h
          obtain ⟨rfl, rfl⟩ := Prod.mk.inj (Except.ok.inj (Option.some.inj h))
          exact ⟨hwf, List.suffix_rfl⟩
    | termCall ts =>
      simp only [parseF] at h
      cases h1 : parseF fuel (.factorCall ts) with
      | none => rw [h1] at h; cases h
      | some r1 =>
        rw [h1] at h
        cases r1 with
        | error e1 => exact Except.noConfusion (Option.some.inj h)
        | ok pr =>
          obtain ⟨node, rest⟩ := pr
          obtain ⟨hwn, hsub⟩ := ih (.factorCall ts) node rest h1 hg trivial
          obtain ⟨hwe, hsub2⟩ :=
            ih (.termLoop node rest) e r h (goodTokens_suffix hsub hg) hwn
          exact ⟨hwe, hsub2.trans hsub⟩
    | termLoop node ts =>
      cases ts with
      | nil =>
        simp only [parseF] at h
        obtain ⟨rfl, rfl⟩ := Prod.mk.inj (Except.ok.inj (Option.some.inj h))
        exact ⟨hwf, List.suffix_rfl⟩
      | cons t ts2 =>
        simp only [parseF] at h
        by_cases hop : (t.type = .STAR ∨ t.type = .SLASH)
        · rw [if_pos hop] at h
          cases h1 : parseF fuel (.factorCall ts2) with
          | none => rw [h1] at h; cases h
          | some r1 =>
            rw [h1] at h
            cases r1 with
            | error e1 => exact Except.noConfusion (Option.some.inj h)
            | ok pr =>
              obtain ⟨right, rest⟩ := pr
              have hg2 : goodTokens ts2 :=
                goodTokens_suffix (List.suffix_cons t ts2) hg
              obtain ⟨hwr, hsub⟩ := ih (.factorCall ts2) right rest h1 hg2 trivial
              obtain ⟨hwe, hsub2⟩ :=
                ih (.termLoop (.BinaryOpNode t.value node right) rest) e r h
                  (goodTokens_suffix hsub hg2) ⟨hwf, hwr⟩
              exact ⟨hwe, ((hsub2.trans hsub).trans (List.suffix_cons t ts2))⟩
        · rw [if_neg hop] at h
          obtain ⟨rfl, rfl⟩ := Prod.mk.inj (Except.ok.inj (Option.some.inj h))
          exact ⟨hwf, List.suffix_rfl⟩
    | factorCall ts =>
      cases ts with
      | nil =>
        simp only [parseF] at h
        exact Except.noConfusion (Option.some.inj h)
      | cons t ts2 =>
        simp only [parseF] at h
        cases htype : t.type
        case NUMBER =>
          rw [htype] at h
          obtain ⟨rfl, rfl⟩ := Prod.mk.inj (Except.ok.inj (Option.some.inj h))
          exact ⟨hg t (List.mem_cons_self t ts2) htype, List.suffix_cons t ts2⟩
        case LPAREN =>
          rw [htype] at h
          cases h1 : parseF fuel (.exprCall ts2) with
          | none => rw [h1] at h; cases h
          | some r1 =>
            simp only [h1] at h
            cases r1 with
            | error e1 => exact Except.noConfusion (Option.some.inj h)
            | ok pr =>
              obtain ⟨inner, rest⟩ := pr
              cases h2 : eat .RPAREN rest with
              | error e2 =>
                simp only [h2] at h
                exact Except.noConfusion (Option.some.inj h)
              | ok pr2 =>
                obtain ⟨tok, rest2⟩ := pr2
                simp only [h2] at h
                obtain ⟨rfl, rfl⟩ := Prod.mk.inj (Except.ok.inj (Option.some.inj h))
                have hg2 : goodTokens ts2 :=
                  goodTokens_suffix (List.suffix_cons t ts2) hg
                obtain ⟨hwi, hsub⟩ := ih (.exprCall ts2) inner rest h1 hg2 trivial
                obtain ⟨hrw, -⟩ := eat_ok_inv h2
                have hsub2 : rest2 <:+ rest := hrw ▸ List.suffix_cons tok rest2
                exact ⟨hwi, ((hsub2.trans hsub).trans (List.suffix_cons t ts2))⟩
        all_goals (rw [htype] at h; exact Except.noConfusion (Option.some.inj h))

/-! Braille-table lemmas. -/

theorem mapDigits_props (v : List Char) :
    ∀ ds, mapDigits v = some ds →
      (∀ c ∈ v, pyIsDigit c = true) ∧ (∀ d ∈ ds, isNumeral d = true) ∧
      ds.length = v.length := by
  induction v with
  | nil =>
    intro ds h
    cases Option.some.inj h
    exact ⟨by simp, by simp, rfl⟩
  | cons c cs ih =>
    intro ds h
    simp only [mapDigits] at h
    cases hd : DIGIT_MAP c with
    | none => rw [hd] at h; cases h
    | some d =>
      rw [hd] at h
      cases hm : mapDigits cs with
      | none => rw [hm] at h; cases h
      | some ds2 =>
        rw [hm] at h
        cases Option.some.inj h
        obtain ⟨h1, h2, h3⟩ := ih ds2 hm
        refine ⟨?_, ?_, by simp [h3]⟩
        · intro x hx
          rcases List.mem_cons.mp hx with rfl | hxm
          · exact isDigit_of_DIGIT_MAP x d hd
          · exact h1 x hxm
        · intro x hx
          rcases List.mem_cons.mp hx with rfl | hxm
          · exact isNumeral_of_DIGIT_MAP c x hd
          · exact h2 x hxm

/-! Indicator-invariant scan lemmas. -/

theorem runScan_append (st : RunState) (a b : List Char) :
    runScan st (a ++ b) =
      match runScan st a with
      | some st2 => runScan st2 b
      | none => none := by
  induction a generalizing st with
  | nil => simp [runScan]
  | cons c cs ih =>
    simp only [List.cons_append, runScan]
    cases hstep : runStep st c with
    | none => rfl
    | some st2 => exact ih st2

theorem runScan_plain (cs : List Char) :
    ∀ st, (∀ c ∈ cs, c ≠ NUMBER_INDICATOR ∧ isNumeral c = false) →
      st ≠ .afterInd → cs = [] ∨ runScan st cs = some .normal := by
  induction cs with
  | nil => intro st _ _; exact Or.inl rfl
  | cons c cs2 ih =>
    intro st hplain hst
    right
    have hc := hplain c (List.mem_cons_self c cs2)
    have hstep : runStep st c = some .normal := by
      unfold runStep
      rw [if_neg hc.1, if_neg (by simp [hc.2] : ¬isNumeral c = true)]
      cases st with
      | normal => rfl
      | afterInd => exact absurd rfl hst
      | inRun => rfl
    simp only [runScan, hstep]
    rcases ih .normal (fun x hx => hplain x (List.mem_cons_of_mem c hx))
        (by intro hh; cases hh) with rfl | hres
    · rfl
    · exact hres

theorem runScan_numerals (ds : List Char) :
    ∀ st, ds ≠ [] → (∀ c ∈ ds, isNumeral c = true) → st ≠ .normal →
      runScan st ds = some .inRun := by
  induction ds with
  | nil => intro st h _ _; exact absurd rfl h
  | cons c cs ih =>
    intro st _ hnum hst
    have hc := hnum c (List.mem_cons_self c cs)
    have hstep : runStep st c = some .inRun := by
      unfold runStep
      rw [if_neg (isNumeral_ne_indicator c hc), if_pos hc]
      cases st with
      | normal => exact absurd rfl hst
      | afterInd => rfl
      | inRun => rfl
    simp only [runScan, hstep]
    by_cases hcs : cs = []
    · subst hcs; rfl
    · exact ih .inRun hcs (fun x hx => hnum x (List.mem_cons_of_mem c hx))
        (by intro hh; cases hh)

/-- The central invariant of the transcription encoder: on a well-formed tree
the traversal with need_indicator=true emits an output the indicator scan
accepts, ending outside a pending-indicator state. -/
theorem braille_scan (e : Expr) :
    wfExpr e → ∀ out, braille e true = some out →
      runScan .normal out = some .normal ∨ runScan .normal out = some .inRun := by
  induction e with
  | NumberNode v =>
    intro hwf out h
    simp only [braille, number_to_braille] at h
    cases hm : mapDigits v with
    | none => rw [hm] at h; cases h
    | some ds =>
      rw [hm] at h
      cases Option.some.inj h
      right
      obtain ⟨-, hnum, hlen⟩ := mapDigits_props v ds hm
      have hne : ds ≠ [] := by
        intro hdnil
        subst hdnil
        exact hwf (List.length_eq_zero.mp hlen.symm)
      have hstep : runStep .normal NUMBER_INDICATOR = some .afterInd := by rfl
      simp only [if_true, List.singleton_append, runScan, hstep]
      exact runScan_numerals ds .afterInd hne hnum (by intro hh; cases hh)
  | BinaryOpNode op l r ihl ihr =>
    intro hwf out h
    simp only [braille] at h
    cases h1 : braille l true with
    | none => rw [h1] at h; cases h
    | some le =>
      rw [h1] at h
      cases h2 : OP_MAP op with
      | none => rw [h2] at h; cases h
      | some os =>
        rw [h2] at h
        cases h3 : braille r true with
        | none => rw [h3] at h; cases h
        | some re =>
          rw [h3] at h
          cases Option.some.inj h
          obtain ⟨hosne, hosplain⟩ := OP_MAP_plain op os h2
          rw [List.append_assoc, runScan_append]
          rcases ihl hwf.1 le h1 with hL | hL
          · rw [hL]
            show runScan .normal (os ++ re) = some .normal ∨
              runScan .normal (os ++ re) = some .inRun
            rcases runScan_plain os .normal hosplain (by intro hh; cases hh)
              with rfl | hos
            · exact absurd rfl hosne
            · rw [runScan_append, hos]
              exact ihr hwf.2 re h3
          · rw [hL]
            show runScan .inRun (os ++ re) = some .normal ∨
              runScan .inRun (os ++ re) = some .inRun
            rcases runScan_plain os .inRun hosplain (by intro hh; cases hh)
              with rfl | hos
            · exact absurd rfl hosne
            · rw [runScan_append, hos]
              exact ihr hwf.2 re h3
  | GroupNode e ihe =>
    intro hwf out h
    simp only [braille] at h
    cases h1 : braille e true with
    | none => rw [h1] at h; cases h
    | some inner =>
      rw [h1] at h
      cases Option.some.inj h
      left
      have hstep : runStep .normal LPAREN_BRAILLE = some .normal := by rfl
      simp only [List.cons_append, runScan, hstep]
      show runScan RunState.normal (inner ++ [RPAREN_BRAILLE]) = some RunState.normal
      rw [runScan_append]
      rcases ihe hwf inner h1 with hI | hI <;> rw [hI] <;> rfl

/-- On any tree, a successful traversal with need_indicator=true coincides
with the always-indicator traversal, and emits exactly one indicator symbol
per NumberNode leaf. -/
theorem braille_true_allTrue_count (e : Expr) :
    ∀ out, braille e true = some out →
      brailleAllTrue e = some out ∧
      out.count NUMBER_INDICATOR = count_number_nodes e := by
  induction e with
  | NumberNode v =>
    intro out h
    simp only [braille, number_to_braille] at h
    cases hm : mapDigits v with
    | none => rw [hm] at h; cases h
    | some ds =>
      rw [hm] at h
      cases Option.some.inj h
      constructor
      · simp [brailleAllTrue, number_to_braille, hm]
      · obtain ⟨-, hnum, -⟩ := mapDigits_props v ds hm
        have hnotmem : NUMBER_INDICATOR ∉ ds := by
          intro hmem
          exact absurd rfl (isNumeral_ne_indicator NUMBER_INDICATOR (hnum _ hmem))
        simp [count_number_nodes, List.count_cons_self,
          List.count_eq_zero.mpr hnotmem]
  | BinaryOpNode op l r ihl ihr =>
    intro out h
    simp only [braille] at h
    cases h1 : braille l true with
    | none => rw [h1] at h; cases h
    | some le =>
      rw [h1] at h
      cases h2 : OP_MAP op with
      | none => rw [h2] at h; cases h
      | some os =>
        rw [h2] at h
        cases h3 : braille r true with
        | none => rw [h3] at h; cases h
        | some re =>
          rw [h3] at h
          cases Option.some.inj h
          obtain ⟨hbl, hcl⟩ := ihl le h1
          obtain ⟨hbr, hcr⟩ := ihr re h3
          constructor
          · simp [brailleAllTrue, hbl, h2, hbr]
          · obtain ⟨-, hosplain⟩ := OP_MAP_plain op os h2
            have hnotmem : NUMBER_INDICATOR ∉ os := by
              intro hmem
              exact absurd rfl (hosplain _ hmem).1
            simp [List.count_append, hcl, hcr, count_number_nodes,
              List.count_eq_zero.mpr hnotmem]
  | GroupNode e ihe =>
    intro out h
    simp only [braille] at h
    cases h1 : braille e true with
    | none => rw [h1] at h; cases h
    | some inner =>
      rw [h1] at h
      cases Option.some.inj h
      obtain ⟨hbi, hci⟩ := ihe inner h1
      constructor
      · simp [brailleAllTrue, hbi]
      · have hne1 : NUMBER_INDICATOR ≠ LPAREN_BRAILLE := by decide
        have h0 : List.count NUMBER_INDICATOR [RPAREN_BRAILLE] = 0 := by decide
        show List.count NUMBER_INDICATOR (LPAREN_BRAILLE :: inner ++ [RPAREN_BRAILLE]) =
          count_number_nodes (.GroupNode e)
        rw [List.cons_append, List.count_cons_of_ne hne1, List.count_append, h0,
          Nat.add_zero]
        exact hci

/-! The claims. -/

/-- C1: for every input on which latex_to_korean_braille succeeds, every
maximal run of adjacent numeral symbols in the output is immediately preceded
by exactly one number-indicator symbol, no run is preceded by more than one,
and the indicator appears nowhere else.  `indicatorOk` is a left-to-right
scan that rejects exactly the violations of this invariant: a numeral not
preceded by an indicator or a numeral, an indicator directly after an
indicator, and an indicator not followed by a numeral. -/
theorem claim_C1_indicator_invariant (s out : List Char)
    (h : latex_to_korean_braille s = .ok out) : indicatorOk out = true := by
  unfold latex_to_korean_braille at h
  cases hp : parseInput s with
  | error e => rw [hp] at h; cases h
  | ok tree =>
    simp only [hp] at h
    cases hb : braille tree true with
    | none => rw [hb] at h; cases h
    | some out2 =>
      rw [hb] at h
      cases Except.ok.inj h
      have hwf : wfExpr tree := by
        unfold parseInput at hp
        cases ht : tokenize s with
        | error e => rw [ht] at hp; cases hp
        | ok ts =>
          simp only [ht] at hp
          cases hq : parse ts with
          | error e => rw [hq] at hp; cases hp
          | ok tree2 =>
            simp only [hq] at hp
            cases Except.ok.inj hp
            unfold parse at hq
            cases hr : parseF (3 * ts.length + 3) (.exprCall ts) with
            | none => rw [hr] at hq; cases hq
            | some r1 =>
              simp only [hr] at hq
              cases r1 with
              | error e1 => cases hq
              | ok pr =>
                obtain ⟨tree3, rest⟩ := pr
                cases he : eat .EOF rest with
                | error e2 => simp only [he] at hq; cases hq
                | ok pr2 =>
                  simp only [he] at hq
                  cases Except.ok.inj hq
                  exact (parseF_wf _ (.exprCall ts) _ _ hr
                    (tokenize_goodTokens s ts ht) trivial).1
      rcases braille_scan tree hwf _ hb with hS | hS <;>
        simp [indicatorOk, hS]

/-- C1 witness: the invariant holds on the concrete conversion of "42". -/
theorem claim_C1_witness :
    latex_to_korean_braille ['4', '2'] = .ok ['⠼', '⠙', '⠃'] ∧
    indicatorOk ['⠼', '⠙', '⠃'] = true :=
  ⟨by decide, claim_C1_indicator_invariant ['4', '2'] ['⠼', '⠙', '⠃'] (by decide)⟩

/-- C2: for every expression `A op B` with numeral literals A and B and
op one of + - * /, the converter output is the encoding of A with the
indicator, then op's symbol sequence from OP_MAP, then the encoding of B
with the indicator — both operands are always marked. -/
theorem claim_C2_binary_both_marked (A B : List Char) (op : Char)
    (ea os eb : List Char) (hA : A ≠ []) (hB : B ≠ [])
    (hea : number_to_braille A true = some ea)
    (hos : OP_MAP [op] = some os)
    (heb : number_to_braille B true = some eb) :
    latex_to_korean_braille (A ++ op :: B) = .ok (ea ++ os ++ eb) := by
  have hinvA : ∃ dsA, mapDigits A = some dsA := by
    unfold number_to_braille at hea
    cases hm : mapDigits A with
    | none => rw [hm] at hea; cases hea
    | some ds => exact ⟨ds, rfl⟩
  have hinvB : ∃ dsB, mapDigits B = some dsB := by
    unfold number_to_braille at heb
    cases hm : mapDigits B with
    | none => rw [hm] at heb; cases heb
    | some ds => exact ⟨ds, rfl⟩
  obtain ⟨dsA, hmA⟩ := hinvA
  obtain ⟨dsB, hmB⟩ := hinvB
  have hdA : ∀ c ∈ A, pyIsDigit c = true := (mapDigits_props A dsA hmA).1
  have hdB : ∀ c ∈ B, pyIsDigit c = true := (mapDigits_props B dsB hmB).1
  rcases OP_MAP_cases [op] os hos with ⟨hop, rfl⟩ | ⟨hop, rfl⟩ | ⟨hop, rfl⟩ | ⟨hop, rfl⟩
  · obtain rfl : op = '+' := by simpa using hop
    have htok := tokenize_num_op_num A B '+' .PLUS hA hB hdA hdB rfl
    have hparse : parse [⟨.NUMBER, A⟩, ⟨.PLUS, ['+']⟩, ⟨.NUMBER, B⟩, ⟨.EOF, []⟩] =
        .ok (.BinaryOpNode ['+'] (.NumberNode A) (.NumberNode B)) := rfl
    have hbr : braille (.BinaryOpNode ['+'] (.NumberNode A) (.NumberNode B)) true =
        some (ea ++ ['⠢'] ++ eb) := by
      simp [braille, hea, hos, heb]
    simp only [latex_to_korean_braille, parseInput, htok, hparse, hbr]
  · obtain rfl : op = '-' := by simpa using hop
    have htok := tokenize_num_op_num A B '-' .MINUS hA hB hdA hdB rfl
    have hparse : parse [⟨.NUMBER, A⟩, ⟨.MINUS, ['-']⟩, ⟨.NUMBER, B⟩, ⟨.EOF, []⟩] =
        .ok (.BinaryOpNode ['-'] (.NumberNode A) (.NumberNode B)) := rfl
    have hbr : braille (.BinaryOpNode ['-'] (.NumberNode A) (.NumberNode B)) true =
        some (ea ++ ['⠔'] ++ eb) := by
      simp [braille, hea, hos, heb]
    simp only [latex_to_korean_braille, parseInput, htok, hparse, hbr]
  · obtain rfl : op = '*' := by simpa using hop
    have htok := tokenize_num_op_num A B '*' .STAR hA hB hdA hdB rfl
    have hparse : parse [⟨.NUMBER, A⟩, ⟨.STAR, ['*']⟩, ⟨.NUMBER, B⟩, ⟨.EOF, []⟩] =
        .ok (.BinaryOpNode ['*'] (.NumberNode A) (.NumberNode B)) := rfl
    have hbr : braille (.BinaryOpNode ['*'] (.NumberNode A) (.NumberNode B)) true =
        some (ea ++ ['⠡'] ++ eb) := by
      simp [braille, hea, hos, heb]
    simp only [latex_to_korean_braille, parseInput, htok, hparse, hbr]
  · obtain rfl : op = '/' := by simpa using hop
    have htok := tokenize_num_op_num A B '/' .SLASH hA hB hdA hdB rfl
    have hparse : parse [⟨.NUMBER, A⟩, ⟨.SLASH, ['/']⟩, ⟨.NUMBER, B⟩, ⟨.EOF, []⟩] =
        .ok (.BinaryOpNode ['/'] (.NumberNode A) (.NumberNode B)) := rfl
    have hbr : braille (.BinaryOpNode ['/'] (.NumberNode A) (.NumberNode B)) true =
        some (ea ++ ['⠌', '⠌'] ++ eb) := by
      simp [braille, hea, hos, heb]
    simp only [latex_to_korean_braille, parseInput, htok, hparse, hbr]

/-- C2 witness: "2+3" converts to the marked encodings of 2 and 3 joined by
the plus symbol. -/
theorem claim_C2_witness :
    number_to_braille ['2'] true = some ['⠼', '⠃'] ∧
    OP_MAP ['+'] = some ['⠢'] ∧
    number_to_braille ['3'] true = some ['⠼', '⠉'] ∧
    latex_to_korean_braille ['2', '+', '3'] = .ok (['⠼', '⠃'] ++ ['⠢'] ++ ['⠼', '⠉']) :=
  ⟨by decide, by decide, by decide,
    claim_C2_binary_both_marked ['2'] ['3'] '+' ['⠼', '⠃'] ['⠢'] ['⠼', '⠉']
      (by decide) (by decide) (by decide) (by decide) (by decide)⟩

/-- C3: the parser is left-associative and encodes precedence by call depth:
"1 - 2 - 3" parses as (1 - 2) - 3 and "2 + 3 * 4" as 2 + (3 * 4), witnessed
by the DebugVisitor structure echo returning "((1 - 2) - 3)" and
"(2 + (3 * 4))". -/
theorem claim_C3_assoc_precedence :
    parseInput ['1', ' ', '-', ' ', '2', ' ', '-', ' ', '3'] =
      .ok (.BinaryOpNode ['-']
        (.BinaryOpNode ['-'] (.NumberNode ['1']) (.NumberNode ['2']))
        (.NumberNode ['3'])) ∧
    debugVisit (.BinaryOpNode ['-']
        (.BinaryOpNode ['-'] (.NumberNode ['1']) (.NumberNode ['2']))
        (.NumberNode ['3'])) =
      ['(', '(', '1', ' ', '-', ' ', '2', ')', ' ', '-', ' ', '3', ')'] ∧
    parseInput ['2', ' ', '+', ' ', '3', ' ', '*', ' ', '4'] =
      .ok (.BinaryOpNode ['+'] (.NumberNode ['2'])
        (.BinaryOpNode ['*'] (.NumberNode ['3']) (.NumberNode ['4']))) ∧
    debugVisit (.BinaryOpNode ['+'] (.NumberNode ['2'])
        (.BinaryOpNode ['*'] (.NumberNode ['3']) (.NumberNode ['4']))) =
      ['(', '2', ' ', '+', ' ', '(', '3', ' ', '*', ' ', '4', ')', ')'] := by
  exact ⟨by decide, by decide, by decide, by decide⟩

/-- C4 counterexample: removing the two bracket symbols from the output of
convert("(2+3)*4") does not yield the output of convert("2+3") — the former
still contains the times symbol and the marked encoding of 4. -/
theorem claim_C4_counterexample :
    latex_to_korean_braille ['(', '2', '+', '3', ')', '*', '4'] =
      .ok ['⠦', '⠼', '⠃', '⠢', '⠼', '⠉', '⠴', '⠡', '⠼', '⠙'] ∧
    latex_to_korean_braille ['2', '+', '3'] = .ok ['⠼', '⠃', '⠢', '⠼', '⠉'] ∧
    ['⠦', '⠼', '⠃', '⠢', '⠼', '⠉', '⠴', '⠡', '⠼', '⠙'].filter
        (fun c => c != LPAREN_BRAILLE && c != RPAREN_BRAILLE) ≠
      ['⠼', '⠃', '⠢', '⠼', '⠉'] := by
  exact ⟨by decide, by decide, by decide⟩

/-- C4 amended: the outputs of convert("(2+3)*4") and convert("2+3*4")
differ by exactly the two bracket symbols surrounding the first operand's
encoding, and that bracketed segment is exactly the output of
convert("2+3"). -/
theorem claim_C4_amended_brackets :
    latex_to_korean_braille ['(', '2', '+', '3', ')', '*', '4'] =
      .ok ([LPAREN_BRAILLE] ++ ['⠼', '⠃', '⠢', '⠼', '⠉'] ++ [RPAREN_BRAILLE] ++
        ['⠡', '⠼', '⠙']) ∧
    latex_to_korean_braille ['2', '+', '3', '*', '4'] =
      .ok (['⠼', '⠃', '⠢', '⠼', '⠉'] ++ ['⠡', '⠼', '⠙']) ∧
    latex_to_korean_braille ['2', '+', '3'] = .ok ['⠼', '⠃', '⠢', '⠼', '⠉'] := by
  exact ⟨by decide, by decide, by decide⟩

/-- C5 counterexample: two grammar violations at different positions
("3 + " fails at token index 2, "1 * 2 + " at token index 4) raise
identical ParseError values, so the error does not carry the position. -/
theorem claim_C5_counterexample :
    parseInput ['3', ' ', '+', ' '] = .error (.parse (.badFactor ⟨.EOF, []⟩)) ∧
    parseInput ['1', ' ', '*', ' ', '2', ' ', '+', ' '] =
      .error (.parse (.badFactor ⟨.EOF, []⟩)) := by
  exact ⟨by decide, by decide⟩

/-- C5 amended: every grammar violation raises a ParseError carrying the
expected token kind (for _eat mismatches; the factor rule's fixed
NUMBER-or-LPAREN expectation otherwise) and the actual token, but not the
position; exhibited on one input per violation class: operator not followed
by a factor ("3 + "), missing closing parenthesis ("(3"), trailing
unconsumed token ("3 3"), and a factor that is neither a number nor a left
parenthesis ("+"). -/
theorem claim_C5_amended_errors :
    parseInput ['3', ' ', '+', ' '] = .error (.parse (.badFactor ⟨.EOF, []⟩)) ∧
    parseInput ['(', '3'] = .error (.parse (.expectedTok .RPAREN ⟨.EOF, []⟩)) ∧
    parseInput ['3', ' ', '3'] =
      .error (.parse (.expectedTok .EOF ⟨.NUMBER, ['3']⟩)) ∧
    parseInput ['+'] = .error (.parse (.badFactor ⟨.PLUS, ['+']⟩)) := by
  exact ⟨by decide, by decide, by decide, by decide⟩

/-- C6: on a nonempty all-digit input (mapDigits succeeds exactly on digit
strings, mapping each digit in source order), the converter returns exactly
one indicator symbol followed by the digits' symbols, verbatim — leading
zeros preserved. -/
theorem claim_C6_digit_input (s ds : List Char) (hs : s ≠ [])
    (hm : mapDigits s = some ds) :
    latex_to_korean_braille s = .ok (NUMBER_INDICATOR :: ds) := by
  have hd : ∀ c ∈ s, pyIsDigit c = true := (mapDigits_props s ds hm).1
  have htok := tokenize_digits s hs hd
  have hparse : parse [⟨.NUMBER, s⟩, ⟨.EOF, []⟩] = .ok (.NumberNode s) := rfl
  have hbr : braille (.NumberNode s) true = some (NUMBER_INDICATOR :: ds) := by
    simp [braille, number_to_braille, hm]
  simp only [latex_to_korean_braille, parseInput, htok, hparse, hbr]

/-- C6 witness: "007" keeps its leading zeros. -/
theorem claim_C6_witness :
    mapDigits ['0', '0', '7'] = some ['⠚', '⠚', '⠛'] ∧
    latex_to_korean_braille ['0', '0', '7'] =
      .ok (NUMBER_INDICATOR :: ['⠚', '⠚', '⠛']) :=
  ⟨by decide, claim_C6_digit_input ['0', '0', '7'] ['⠚', '⠚', '⠛']
    (by decide) (by decide)⟩

/-- C7: any input containing a character that is not a digit, an operator or
parenthesis from _CHAR_MAP, whitespace, or `$` makes tokenize fail with a
LexError carrying the offending character, its 0-based position in the
normalized input, and the full normalized input; in particular "3 & 4"
reports the character at position 2. -/
theorem claim_C7_lex_error :
    (∀ (s : List Char) (c : Char), c ∈ s → c ≠ '$' → allowedChar c = false →
      ∃ e : LexError, tokenize s = .error e ∧ allowedChar e.ch = false ∧
        (normalize s)[e.pos]? = some e.ch ∧ e.text = normalize s) ∧
    tokenize ['3', ' ', '&', ' ', '4'] =
      .error ⟨'&', 2, ['3', ' ', '&', ' ', '4']⟩ := by
  constructor
  · intro s c hc hdollar hbad
    have hsp : pyIsSpace c = false := by
      unfold allowedChar at hbad
      rcases Bool.or_eq_false_iff.mp hbad with ⟨h12, -⟩
      exact (Bool.or_eq_false_iff.mp h12).2
    have hmem : c ∈ normalize s := mem_normalize s c hc hsp hdollar
    unfold tokenize
    cases hx : lexF ((normalize s).length + 1) (normalize s) (normalize s) 0 with
    | none =>
      exact absurd hx (lexF_isSome _ _ _ _ (Nat.lt_succ_self _))
    | some r =>
      cases r with
      | ok ts =>
        have hca := lexF_ok_allowed _ _ _ _ _ hx c hmem
        rw [hbad] at hca
        cases hca
      | error e =>
        obtain ⟨he1, he2, he3⟩ :=
          lexF_err _ _ _ _ _ (List.drop_zero _).symm hx
        exact ⟨e, rfl, he1, he3, he2⟩
  · decide

/-- C7 witness: the offending character of "3 & 4" is reported with its
position in the normalized input. -/
theorem claim_C7_witness :
    ∃ e : LexError, tokenize ['3', ' ', '&', ' ', '4'] = .error e ∧
      allowedChar e.ch = false ∧
      (normalize ['3', ' ', '&', ' ', '4'])[e.pos]? = some e.ch ∧
      e.text = normalize ['3', ' ', '&', ' ', '4'] :=
  claim_C7_lex_error.1 ['3', ' ', '&', ' ', '4'] '&' (by decide) (by decide)
    (by decide)

/-- C8: a numeral directly after a closing parenthesis, "(3)4", is rejected:
after the complete expression (3) is parsed, the token 4 remains, so
_eat(EOF) raises a ParseError (expected EOF, got NUMBER "4"); the input is
never accepted. -/
theorem claim_C8_trailing_numeral :
    parseInput ['(', '3', ')', '4'] =
      .error (.parse (.expectedTok .EOF ⟨.NUMBER, ['4']⟩)) ∧
    latex_to_korean_braille ['(', '3', ')', '4'] =
      .error (.parse (.expectedTok .EOF ⟨.NUMBER, ['4']⟩)) := by
  exact ⟨by decide, by decide⟩

/-- C9: a traversal started from BrailleVisitor.convert never sees a false
need_indicator flag — it coincides with the always-indicator traversal
brailleAllTrue (the flag starts true at the root, is passed unchanged to
left children and forced true for right children and group interiors) — and
consequently the output holds exactly one indicator symbol per NumberNode
leaf. -/
theorem claim_C9_flag_always_true (e : Expr) (out : List Char)
    (h : convert e = some out) :
    brailleAllTrue e = some out ∧
    out.count NUMBER_INDICATOR = count_number_nodes e :=
  braille_true_allTrue_count e out h

/-- C9 witness: the tree of "6*7" has two NumberNode leaves and its output
has exactly two indicator symbols. -/
theorem claim_C9_witness :
    convert (.BinaryOpNode ['*'] (.NumberNode ['6']) (.NumberNode ['7'])) =
      some ['⠼', '⠋', '⠡', '⠼', '⠛'] ∧
    (brailleAllTrue (.BinaryOpNode ['*'] (.NumberNode ['6']) (.NumberNode ['7'])) =
      some ['⠼', '⠋', '⠡', '⠼', '⠛'] ∧
    (['⠼', '⠋', '⠡', '⠼', '⠛'] : List Char).count NUMBER_INDICATOR =
      count_number_nodes (.BinaryOpNode ['*'] (.NumberNode ['6']) (.NumberNode ['7']))) :=
  ⟨by decide, claim_C9_flag_always_true _ _ (by decide)⟩

/-- C10: on any input whose normalized form is empty, tokenize returns
exactly [EndOfInput], and the converter raises a ParseError (the factor rule
meeting EndOfInput), not a LexError, and returns no output. -/
theorem claim_C10_empty_input (s : List Char) (h : normalize s = []) :
    tokenize s = .ok [⟨.EOF, []⟩] ∧
    latex_to_korean_braille s = .error (.parse (.badFactor ⟨.EOF, []⟩)) := by
  have htok : tokenize s = .ok [⟨.EOF, []⟩] := by
    unfold tokenize
    rw [h]
    rfl
  refine ⟨htok, ?_⟩
  have hparse : parse [(⟨.EOF, []⟩ : Token)] = .error (.badFactor ⟨.EOF, []⟩) := by
    decide
  simp only [latex_to_korean_braille, parseInput, htok, hparse]

/-- C10 witness: a whitespace-only input normalizes to the empty string. -/
theorem claim_C10_witness :
    normalize [' '] = [] ∧
    (tokenize [' '] = .ok [⟨.EOF, []⟩] ∧
      latex_to_korean_braille [' '] = .error (.parse (.badFactor ⟨.EOF, []⟩))) :=
  ⟨by decide, claim_C10_empty_input [' '] (by decide)⟩

end Kobraille
